import Mathlib

/-!
Verification of the data-cleaning and insight-generation core of
`sippitudeapp.py` (an interactive media-intelligence dashboard).

The embedding models a pandas `DataFrame` as a header list plus a list of
rows, where each row is a list of cells aligned with the header.  A cell is
either a missing value (`NaN`/`NaT`), a raw string (as read from CSV), a
parsed calendar date (the result of `pd.to_datetime(...).dt.date`, encoded
as a day ordinal), or a parsed number (the result of `pd.to_numeric`;
engagement counts are modelled as integers).

The two external parsers `pd.to_datetime(errors="coerce")` and
`pd.to_numeric(errors="coerce")` are library calls, so they enter the
embedding as abstract parameters (`pdate`, `pnum`) returning `Option`
values; `none` models `NaT`/`NaN`.

`value_counts`, `groupby(...).sum()`, `sort_values` and `idxmax` are
modelled directly: grouping produces one `(key, aggregate)` pair per
distinct key with keys sorted ascending (pandas sorts group keys),
`sort_values(ascending=False)` and the descending sort inside
`value_counts` are modelled with a stable sort (pandas leaves the order of
equal-count ties unspecified), and `idxmax` returns the first key
attaining the maximum value.
-/

/-- A single table cell: missing (`NaN`/`NaT`), a raw string, a parsed
calendar date (day ordinal), or a parsed number. -/
inductive Cell where
  | missing : Cell
  | str : String → Cell
  | date : Nat → Cell
  | num : Int → Cell
deriving DecidableEq, Repr

/-- A pandas `DataFrame`: a list of column names and a list of rows, each
row a list of cells aligned with the column list. -/
structure DataFrame where
  cols : List String
  rows : List (List Cell)
deriving DecidableEq, Repr

/-- `df.empty` in pandas: true when either axis has length zero. -/
def DataFrame.empty (df : DataFrame) : Bool :=
  df.rows.isEmpty || df.cols.isEmpty

/-- A dataframe is rectangular when every row has one cell per column
(always true of a pandas frame). -/
def DataFrame.rectangular (df : DataFrame) : Bool :=
  df.rows.all (fun r => r.length == df.cols.length)

/-- Position of the first column with the given name (pandas label
lookup for a frame with unique labels). -/
def colIdx (cname : String) : List String → Option Nat
  | [] => none
  | c :: cs => if c = cname then some 0 else (colIdx cname cs).map (· + 1)

/-- The cell of row `r` in the column named `cname` (`.missing` when the
column is absent or the row is too short). -/
def cellAt (cols : List String) (cname : String) (r : List Cell) : Cell :=
  match colIdx cname cols with
  | some i => (r[i]?).getD Cell.missing
  | none => Cell.missing

/-- Column assignment `df[cname] = f(df[cname])` restricted to one row:
replace the cell in column `cname` by `f` of the old cell. -/
def setCol (cols : List String) (cname : String) (f : Cell → Cell)
    (r : List Cell) : List Cell :=
  match colIdx cname cols with
  | some i => r.set i (f ((r[i]?).getD Cell.missing))
  | none => r

/-- One character of `.str.lower()` followed by `.str.replace(' ', '_')`
(source line 95).  Lowercasing is the ASCII case map (`A`-`Z` to
`a`-`z`); the space-to-underscore replacement of a one-character pattern
acts character by character. -/
def normChar (c : Char) : Char :=
  let l := c.toLower
  if l = '\x20' then '_' else l

/-- Column-name normalization of source line 95: lowercase the name and
replace every space with an underscore. -/
def normalizeName (s : String) : String :=
  ⟨s.data.map normChar⟩

/-- The six required (normalized) column names of source line 97. -/
def requiredColumns : List String :=
  ["date", "platform", "sentiment", "location", "engagements", "media_type"]

/-- The missing-column error message of source line 101: the normalized
missing names joined by ", ", inside a fixed template whose static tail
lists all six human-readable names. -/
def missingMessage (miss : List String) : String :=
  "Missing required columns: " ++ String.intercalate ", " miss ++
    ". Please ensure your CSV has \x27Date\x27, \x27Platform\x27, \x27Sentiment\x27, \x27Location\x27, \x27Engagements\x27, \x27Media Type\x27 columns."

/-- Spec-side variant of the missing-column message, written from the
spec's words for the refinement comparison of the validation failure: the
failure "lists the missing names verbatim (preserving human-readable
capitalization in the message, e.g. \x22Media Type\x22)".  It names the
missing columns by their human-readable capitalization inside the same
template. -/
def specHumanName (c : String) : String :=
  if c = "date" then "Date"
  else if c = "platform" then "Platform"
  else if c = "sentiment" then "Sentiment"
  else if c = "location" then "Location"
  else if c = "engagements" then "Engagements"
  else if c = "media_type" then "Media Type"
  else c

/-- Spec-side missing-column message (see `specHumanName`): the missing
columns are listed with human-readable capitalization. -/
def specMissingMessage (miss : List String) : String :=
  "Missing required columns: " ++
    String.intercalate ", " (miss.map specHumanName) ++
    ". Please ensure your CSV has \x27Date\x27, \x27Platform\x27, \x27Sentiment\x27, \x27Location\x27, \x27Engagements\x27, \x27Media Type\x27 columns."

/-- `pd.to_datetime(cell, errors="coerce")` followed by `.dt.date`:
parse success gives a date cell, failure gives `NaT` (source line 104). -/
def coerceDateCell (pdate : Cell → Option Nat) (c : Cell) : Cell :=
  match pdate c with
  | some d => Cell.date d
  | none => Cell.missing

/-- `pd.to_numeric(cell, errors="coerce").fillna(0)`: parse success keeps
the parsed number, failure or missing becomes `0` (source line 107). -/
def coerceEngCell (pnum : Cell → Option Int) (c : Cell) : Cell :=
  Cell.num ((pnum c).getD 0)

/-- Whether a cell is a parsed date (used by `dropna(subset=["date"])`,
source line 110). -/
def isDateCell : Cell → Bool
  | Cell.date _ => true
  | _ => false

/-- The row transformation applied by the cleaning pipeline: coerce the
`date` cell (line 104), then the `engagements` cell (line 107). -/
def transformRow (pdate : Cell → Option Nat) (pnum : Cell → Option Int)
    (ncols : List String) (r : List Cell) : List Cell :=
  setCol ncols "engagements" (coerceEngCell pnum)
    (setCol ncols "date" (coerceDateCell pdate) r)

/-- `clean_data` (source lines 84-112): on an empty frame return an empty
frame and the no-data message; otherwise normalize the column names,
validate the six required columns (returning the missing-column message on
failure), then coerce the `date` and `engagements` columns and drop rows
whose date failed to parse. -/
def clean_data (pdate : Cell → Option Nat) (pnum : Cell → Option Int)
    (df : DataFrame) : DataFrame × String :=
  if df.empty then
    (⟨[], []⟩, "No data to clean or process.")
  else
    let ncols := df.cols.map normalizeName
    let miss := requiredColumns.filter (fun c => decide (c ∉ ncols))
    if miss = [] then
      let rows2 := df.rows.map (transformRow pdate pnum ncols)
      let rows3 := rows2.filter (fun r => isDateCell (cellAt ncols "date" r))
      (⟨ncols, rows3⟩, "")
    else
      (⟨[], []⟩, missingMessage miss)

/-- Insert an element into a list so that it lands before the first
element it compares `le` to (insertion step of a sort). -/
def insertLeB {α : Type} (le : α → α → Bool) (a : α) : List α → List α
  | [] => [a]
  | b :: l => if le a b then a :: b :: l else b :: insertLeB le a l

/-- Insertion sort by a boolean comparison.  This models the sorts of the
source (`groupby`'s ascending key sort, `sort_values(ascending=False)` and
the descending count sort inside `value_counts`); pandas leaves the order
of ties unspecified, so any sort agreeing with the comparison is a
faithful model. -/
def sortLeB {α : Type} (le : α → α → Bool) : List α → List α
  | [] => []
  | a :: l => insertLeB le a (sortLeB le l)

/-- Code-point comparison of characters. -/
def charLt (a b : Char) : Bool :=
  decide (a.toNat < b.toNat)

/-- Lexicographic code-point comparison of character lists. -/
def strLeAux : List Char → List Char → Bool
  | [], _ => true
  | _ :: _, [] => false
  | a :: as, b :: bs => if a = b then strLeAux as bs else charLt a b

/-- Lexicographic code-point comparison of strings (the order pandas uses
to sort string group keys). -/
def strLe (a b : String) : Bool :=
  strLeAux a.data b.data

/-- An insight statement produced by `generate_insights` (source lines
115-174).  Fixed sentences are carried verbatim by `msg`; statements that
interpolate computed values are carried in structured form: the
constructor identifies the sentence template and the arguments are the
interpolated values (percentages as exact rationals, engagement totals as
integers, dates as day ordinals). -/
inductive Insight where
  | msg : String → Insight
  | dominantSentiment : String → ℚ → Insight
  | secondSentiment : String → ℚ → Insight
  | sentimentTotal : Nat → Insight
  | peakEngagement : Nat → Int → Insight
  | avgEngagement : ℚ → Insight
  | dateRange : Nat → Nat → Insight
  | topPlatform : String → Int → Insight
  | secondPlatform : String → Int → Insight
  | platformCount : Nat → Insight
  | topMediaType : String → ℚ → Insight
  | secondMediaType : String → ℚ → Insight
  | mediaTypeTotal : Nat → Insight
  | topLocation : String → Nat → Insight
  | secondLocation : String → Nat → Insight
  | thirdLocation : String → Nat → Insight
deriving DecidableEq, Repr

/-- The string payload of a string cell (`none` models `NaN`, which
`value_counts` and `groupby` drop). -/
def strVal : Cell → Option String
  | Cell.str s => some s
  | _ => none

/-- The numeric payload of a cell (engagement cells are numeric after
cleaning). -/
def numVal : Cell → Int
  | Cell.num n => n
  | _ => 0

/-- `idxmax` over a nonempty series of integer values, given as head pair
plus tail: the first key attaining the maximum value, returned together
with that value. -/
def idxmaxFrom {κ : Type} (p : κ × Int) (ps : List (κ × Int)) : κ × Int :=
  ps.foldl (fun b q => if b.2 < q.2 then q else b) p

/-- `idxmax` over a nonempty series of rational values (the normalized
percentage series of `value_counts(normalize=True)`). -/
def idxmaxFromQ {κ : Type} (p : κ × ℚ) (ps : List (κ × ℚ)) : κ × ℚ :=
  ps.foldl (fun b q => if b.2 < q.2 then q else b) p

/-- `.max()` of a nonempty integer series given as head plus tail. -/
def intFoldMax (v : Int) (vs : List Int) : Int :=
  vs.foldl max v

/-- `.max()` of a nonempty rational series given as head plus tail. -/
def ratFoldMax (v : ℚ) (vs : List ℚ) : ℚ :=
  vs.foldl max v

/-- `.min()` of a nonempty list of dates (a series index). -/
def natFoldMin (v : Nat) (vs : List Nat) : Nat :=
  vs.foldl min v

/-- `.max()` of a nonempty list of dates (a series index). -/
def natFoldMax (v : Nat) (vs : List Nat) : Nat :=
  vs.foldl max v

/-- The non-missing string values of a column, in row order (what
`value_counts` and `groupby` see after dropping `NaN`). -/
def colStrVals (df : DataFrame) (cname : String) : List String :=
  df.rows.filterMap (fun r => strVal (cellAt df.cols cname r))

/-- `value_counts()` over a list of string values: one `(value, count)`
pair per distinct value, sorted by count descending. -/
def valueCounts (vals : List String) : List (String × Nat) :=
  sortLeB (fun a b => decide (b.2 ≤ a.2))
    (vals.dedup.map (fun s => (s, vals.count s)))

/-- The `(date, engagements)` pairs of the rows whose date cell is a
parsed date (rows with `NaT` are dropped by `groupby`). -/
def datePairs (df : DataFrame) : List (Nat × Int) :=
  df.rows.filterMap (fun r =>
    match cellAt df.cols "date" r with
    | Cell.date d => some (d, numVal (cellAt df.cols "engagements" r))
    | _ => none)

/-- All parsed dates of the frame, in row order. -/
def dateVals (df : DataFrame) : List Nat :=
  (datePairs df).map Prod.fst

/-- The per-date engagement sum: the group aggregate of
`data.groupby(data["date"].dt.date)["engagements"].sum()` at one key. -/
def daySum (df : DataFrame) (k : Nat) : Int :=
  (((datePairs df).filter (fun q => q.1 = k)).map Prod.snd).sum

/-- The `(platform, engagements)` pairs of the rows whose platform cell is
a string (rows with `NaN` platform are dropped by `groupby`). -/
def platPairs (df : DataFrame) : List (String × Int) :=
  df.rows.filterMap (fun r =>
    match strVal (cellAt df.cols "platform" r) with
    | some p => some (p, numVal (cellAt df.cols "engagements" r))
    | none => none)

/-- The per-platform engagement sum: the group aggregate of
`data.groupby("platform")["engagements"].sum()` at one key. -/
def platSum (df : DataFrame) (p : String) : Int :=
  (((platPairs df).filter (fun q => q.1 = p)).map Prod.snd).sum

/-- The `sentiment` branch of `generate_insights` (source lines 124-132),
applied to the percentage series of
`value_counts(normalize=True) * 100` given as an explicit list. -/
def sentimentAux (total : Nat) : List (String × ℚ) → List Insight
  | [] => []
  | p :: ps =>
    let top := idxmaxFromQ p ps
    Insight.dominantSentiment top.1 (ratFoldMax p.2 (ps.map Prod.snd)) ::
      ((if 1 < (p :: ps).length then
          match (p :: ps).filter (fun q => decide (q.1 ≠ top.1)) with
          | [] => []
          | q :: qs =>
            [Insight.secondSentiment (idxmaxFromQ q qs).1
              (ratFoldMax q.2 (qs.map Prod.snd))]
        else []) ++ [Insight.sentimentTotal total])

/-- The `media_type_mix` branch of `generate_insights` (source lines
154-162), applied to the percentage series of
`value_counts(normalize=True) * 100` given as an explicit list. -/
def mediaTypeAux (total : Nat) : List (String × ℚ) → List Insight
  | [] => []
  | p :: ps =>
    let top := idxmaxFromQ p ps
    Insight.topMediaType top.1 (ratFoldMax p.2 (ps.map Prod.snd)) ::
      ((if 1 < (p :: ps).length then
          match (p :: ps).filter (fun q => decide (q.1 ≠ top.1)) with
          | [] => []
          | q :: qs =>
            [Insight.secondMediaType (idxmaxFromQ q qs).1
              (ratFoldMax q.2 (qs.map Prod.snd))]
        else []) ++ [Insight.mediaTypeTotal total])

/-- The percentage series `value_counts(normalize=True) * 100` over a list
of string values (count percentages, sorted by count descending). -/
def pctSeries (vals : List String) : List (String × ℚ) :=
  (valueCounts vals).map (fun p => (p.1, (p.2 : ℚ) * 100 / (vals.length : ℚ)))

/-- The `engagement_trend` branch of `generate_insights` (source lines
134-144), applied to the sorted distinct date keys of the grouped series.
An empty key list is the `daily_engagements.empty` case. -/
def trendAux (df : DataFrame) : List Nat → List Insight
  | [] => [Insight.msg "No valid date-based engagement data found."]
  | k0 :: ks =>
    let pk := idxmaxFrom (k0, daySum df k0) (ks.map (fun k => (k, daySum df k)))
    let mx := intFoldMax (daySum df k0) (ks.map (daySum df))
    let avg : ℚ :=
      ((((k0 :: ks).map (daySum df)).sum : Int) : ℚ) / (((k0 :: ks).length : Nat) : ℚ)
    [Insight.peakEngagement pk.1 mx, Insight.avgEngagement avg,
      Insight.dateRange (natFoldMin k0 ks) (natFoldMax k0 ks)]

/-- The `platform_engagements` branch of `generate_insights` (source lines
146-152), applied to the per-platform sums ranked by
`sort_values(ascending=False)`, given as an explicit list. -/
def platformAux : List (String × Int) → List Insight
  | [] => []
  | p0 :: tl =>
    Insight.topPlatform p0.1 p0.2 ::
      ((match tl with
        | [] => []
        | p1 :: _ => [Insight.secondPlatform p1.1 p1.2]) ++
        [Insight.platformCount (p0 :: tl).length])

/-- The `top_locations` branch of `generate_insights` (source lines
164-173), applied to `value_counts().head(5)` given as an explicit list. -/
def locationAux : List (String × Nat) → List Insight
  | [] => [Insight.msg "No location data available for analysis."]
  | p0 :: tl =>
    Insight.topLocation p0.1 p0.2 ::
      (match tl with
       | [] => []
       | p1 :: tl2 =>
         Insight.secondLocation p1.1 p1.2 ::
           (match tl2 with
            | [] => []
            | p2 :: _ => [Insight.thirdLocation p2.1 p2.2]))

/-- The sorted distinct group keys of the `engagement_trend` grouping
(pandas `groupby` sorts its keys ascending). -/
def trendKeys (df : DataFrame) : List Nat :=
  sortLeB (fun a b => decide (a ≤ b)) ((dateVals df).dedup)

/-- The ranked per-platform sums: group keys sorted ascending by
`groupby`, aggregated, then ranked by `sort_values(ascending=False)`. -/
def rankedPlatforms (df : DataFrame) : List (String × Int) :=
  sortLeB (fun a b => decide (b.2 ≤ a.2))
    ((sortLeB strLe (((platPairs df).map Prod.fst).dedup)).map
      (fun p => (p, platSum df p)))

/-- `generate_insights` (source lines 115-174): the empty-data guard,
then one branch per known chart category, and the untouched empty insight
list for any other category. -/
def generate_insights (chart_type : String) (data : DataFrame) : List Insight :=
  if data.empty then [Insight.msg "No data available for insights."]
  else if chart_type = "sentiment" then
    sentimentAux (colStrVals data "sentiment").length
      (pctSeries (colStrVals data "sentiment"))
  else if chart_type = "engagement_trend" then
    trendAux data (trendKeys data)
  else if chart_type = "platform_engagements" then
    platformAux (rankedPlatforms data)
  else if chart_type = "media_type_mix" then
    mediaTypeAux (colStrVals data "media_type").length
      (pctSeries (colStrVals data "media_type"))
  else if chart_type = "top_locations" then
    locationAux ((valueCounts (colStrVals data "location")).take 5)
  else []

/-- Whether a cell is a string (the fields `platform`, `sentiment`,
`location`, `media_type` of a cleaned row). -/
def isStrCell : Cell → Bool
  | Cell.str _ => true
  | _ => false

/-- Whether a cell is numeric (the `engagements` field of a cleaned
row). -/
def isNumCell : Cell → Bool
  | Cell.num _ => true
  | _ => false

/-- One row of a Cleaned Record Set, per the spec's data model: a parsed
`date`, a numeric `engagements` count, and string `platform`,
`sentiment`, `location` and `media_type` fields. -/
def wfRow (cols : List String) (r : List Cell) : Bool :=
  isDateCell (cellAt cols "date" r) &&
    isNumCell (cellAt cols "engagements" r) &&
    isStrCell (cellAt cols "platform" r) &&
    isStrCell (cellAt cols "sentiment" r) &&
    isStrCell (cellAt cols "location" r) &&
    isStrCell (cellAt cols "media_type" r)

/-- The Cleaned Record Set invariant of the spec's data model: every row
is well-formed. -/
def cleanedRecordSet (df : DataFrame) : Bool :=
  df.rows.all (wfRow df.cols)

/-- A concrete date parser for witnesses: recognizes two ISO date
strings. -/
def pdateW : Cell → Option Nat
  | Cell.str "2024-01-01" => some 1
  | Cell.str "2024-01-02" => some 2
  | _ => none

/-- A concrete number parser for witnesses: parses integer strings and
passes numeric cells through. -/
def pnumW : Cell → Option Int
  | Cell.str s => s.toInt?
  | Cell.num n => some n
  | _ => none

/-- A concrete raw frame for witnesses: human-readable headers, one row
with a good date and one with a bad date and a missing engagement
count (the example of spec section 8). -/
def rawW : DataFrame :=
  ⟨["Date", "Platform", "Sentiment", "Location", "Engagements", "Media Type"],
   [[Cell.str "2024-01-01", Cell.str "X", Cell.str "Positive", Cell.str "NY",
      Cell.str "10", Cell.str "Video"],
    [Cell.str "bad", Cell.str "X", Cell.str "Negative", Cell.str "NY",
      Cell.missing, Cell.str "Image"]]⟩

/-- A concrete raw frame whose headers lack `Media Type` (for the
missing-column claims). -/
def rawMissingW : DataFrame :=
  ⟨["Date", "Platform", "Sentiment", "Location", "Engagements"],
   [[Cell.str "2024-01-01", Cell.str "X", Cell.str "Positive", Cell.str "NY",
      Cell.str "10"]]⟩

/-- A concrete cleaned frame for witnesses: platform sums are
`{A: 300, B: 700}` (the example of spec section 8). -/
def cleanW : DataFrame :=
  ⟨["date", "platform", "sentiment", "location", "engagements", "media_type"],
   [[Cell.date 1, Cell.str "A", Cell.str "Positive", Cell.str "NY",
      Cell.num 300, Cell.str "Video"],
    [Cell.date 1, Cell.str "B", Cell.str "Negative", Cell.str "LA",
      Cell.num 700, Cell.str "Image"]]⟩

/-! ### Helper lemmas -/

theorem insertLeB_perm {α : Type} (le : α → α → Bool) (a : α) (l : List α) :
    (insertLeB le a l).Perm (a :: l) := by
  induction l with
  | nil => exact List.Perm.refl _
  | cons b t ih =>
    unfold insertLeB
    by_cases h : le a b
    · rw [if_pos h]
    · rw [if_neg h]
      exact (List.Perm.cons b ih).trans (List.Perm.swap a b t)

theorem sortLeB_perm {α : Type} (le : α → α → Bool) (l : List α) :
    (sortLeB le l).Perm l := by
  induction l with
  | nil => exact List.Perm.refl _
  | cons a t ih =>
    exact (insertLeB_perm le a (sortLeB le t)).trans (List.Perm.cons a ih)

theorem mem_insertLeB {α : Type} {le : α → α → Bool} {a x : α} {l : List α} :
    x ∈ insertLeB le a l ↔ x = a ∨ x ∈ l := by
  rw [(insertLeB_perm le a l).mem_iff, List.mem_cons]

theorem mem_sortLeB {α : Type} {le : α → α → Bool} {x : α} {l : List α} :
    x ∈ sortLeB le l ↔ x ∈ l :=
  (sortLeB_perm le l).mem_iff

theorem pairwise_insertLeB {α : Type} {le : α → α → Bool}
    (htrans : ∀ x y z, le x y = true → le y z = true → le x z = true)
    (htot : ∀ x y, le x y = true ∨ le y x = true)
    (a : α) {l : List α} (hl : l.Pairwise (fun x y => le x y = true)) :
    (insertLeB le a l).Pairwise (fun x y => le x y = true) := by
  induction l with
  | nil => simp [insertLeB]
  | cons b t ih =>
    rw [List.pairwise_cons] at hl
    unfold insertLeB
    by_cases h : le a b
    · rw [if_pos h]
      refine List.Pairwise.cons ?_ (List.Pairwise.cons hl.1 hl.2)
      intro x hx
      rcases List.mem_cons.mp hx with rfl | hx
      · exact h
      · exact htrans a b x h (hl.1 x hx)
    · rw [if_neg h]
      have hba : le b a = true := by
        rcases htot a b with hab | hba
        · exact absurd hab h
        · exact hba
      refine List.Pairwise.cons ?_ (ih hl.2)
      intro x hx
      rcases mem_insertLeB.mp hx with rfl | hx
      · exact hba
      · exact hl.1 x hx

theorem pairwise_sortLeB {α : Type} {le : α → α → Bool}
    (htrans : ∀ x y z, le x y = true → le y z = true → le x z = true)
    (htot : ∀ x y, le x y = true ∨ le y x = true) (l : List α) :
    (sortLeB le l).Pairwise (fun x y => le x y = true) := by
  induction l with
  | nil => simp [sortLeB]
  | cons a t ih => exact pairwise_insertLeB htrans htot a ih

theorem colIdx_eq_none {cname : String} {l : List String} :
    colIdx cname l = none ↔ cname ∉ l := by
  induction l with
  | nil => simp [colIdx]
  | cons c cs ih =>
    unfold colIdx
    by_cases h : c = cname
    · simp [h]
    · rw [if_neg h]
      constructor
      · intro hn hmem
        have hnone : colIdx cname cs = none := by
          cases hx : colIdx cname cs with
          | none => rfl
          | some j => rw [hx] at hn; simp at hn
        rcases List.mem_cons.mp hmem with rfl | hmem
        · exact h rfl
        · exact (ih.mp hnone) hmem
      · intro hn
        have hcs : cname ∉ cs := fun hm => hn (List.mem_cons_of_mem _ hm)
        rw [ih.mpr hcs]
        rfl

theorem colIdx_getElem {cname : String} {l : List String} {i : Nat}
    (h : colIdx cname l = some i) : l[i]? = some cname := by
  induction l generalizing i with
  | nil => simp [colIdx] at h
  | cons c cs ih =>
    unfold colIdx at h
    by_cases hc : c = cname
    · rw [if_pos hc] at h
      cases h
      simp [hc]
    · rw [if_neg hc] at h
      rcases Option.map_eq_some.mp h with ⟨j, hj, rfl⟩
      simpa using ih hj

theorem colIdx_lt_length {cname : String} {l : List String} {i : Nat}
    (h : colIdx cname l = some i) : i < l.length := by
  have := colIdx_getElem h
  exact List.getElem?_eq_some.mp this |>.1

theorem colIdx_ne {c c' : String} {l : List String} {i j : Nat}
    (hcc : c ≠ c') (h : colIdx c l = some i) (h' : colIdx c' l = some j) :
    i ≠ j := by
  intro rfl_ij
  subst rfl_ij
  have h1 := colIdx_getElem h
  have h2 := colIdx_getElem h'
  rw [h1] at h2
  exact hcc (Option.some.inj h2)

theorem setCol_length (cols : List String) (cname : String) (f : Cell → Cell)
    (r : List Cell) : (setCol cols cname f r).length = r.length := by
  unfold setCol
  cases colIdx cname cols <;> simp

theorem cellAt_setCol_ne (cols : List String) {c c' : String}
    (f : Cell → Cell) (r : List Cell) (hne : c ≠ c') :
    cellAt cols c (setCol cols c' f r) = cellAt cols c r := by
  unfold cellAt setCol
  cases h : colIdx c cols with
  | none => cases colIdx c' cols <;> simp
  | some i =>
    cases h' : colIdx c' cols with
    | none => rfl
    | some j =>
      dsimp only
      rw [List.getElem?_set_ne (colIdx_ne (fun e => hne e.symm) h' h)]

theorem cellAt_setCol_self (cols : List String) {c : String}
    (f : Cell → Cell) (r : List Cell) {i : Nat}
    (hidx : colIdx c cols = some i) (hlen : i < r.length) :
    cellAt cols c (setCol cols c f r) = f (cellAt cols c r) := by
  unfold cellAt setCol
  rw [hidx]
  dsimp only
  rw [List.getElem?_set_self hlen]
  simp

theorem idxmaxFrom_mem {κ : Type} (p : κ × Int) (ps : List (κ × Int)) :
    idxmaxFrom p ps ∈ p :: ps := by
  induction ps generalizing p with
  | nil => simp [idxmaxFrom]
  | cons q qs ih =>
    have hstep : idxmaxFrom p (q :: qs) =
        idxmaxFrom (if p.2 < q.2 then q else p) qs := rfl
    rw [hstep]
    rcases List.mem_cons.mp (ih (if p.2 < q.2 then q else p)) with h1 | h2
    · rw [h1]
      by_cases hc : p.2 < q.2
      · simp [hc]
      · simp [hc]
    · simp only [List.mem_cons]
      tauto

theorem idxmaxFrom_le {κ : Type} (p : κ × Int) (ps : List (κ × Int)) :
    ∀ q ∈ p :: ps, q.2 ≤ (idxmaxFrom p ps).2 := by
  induction ps generalizing p with
  | nil =>
    intro q hq
    rcases List.mem_cons.mp hq with rfl | h
    · exact le_refl _
    · simp at h
  | cons q qs ih =>
    intro x hx
    have hstep : idxmaxFrom p (q :: qs) =
        idxmaxFrom (if p.2 < q.2 then q else p) qs := rfl
    rw [hstep]
    have hm : ((if p.2 < q.2 then q else p) : κ × Int).2 ≤
        (idxmaxFrom (if p.2 < q.2 then q else p) qs).2 :=
      ih (if p.2 < q.2 then q else p) _ (List.mem_cons_self _ _)
    have hp2 : p.2 ≤ ((if p.2 < q.2 then q else p) : κ × Int).2 := by
      by_cases hc : p.2 < q.2 <;> simp [hc] <;> omega
    have hq2 : q.2 ≤ ((if p.2 < q.2 then q else p) : κ × Int).2 := by
      by_cases hc : p.2 < q.2 <;> simp [hc] <;> omega
    rcases List.mem_cons.mp hx with rfl | hx
    · exact le_trans hp2 hm
    · rcases List.mem_cons.mp hx with rfl | hx
      · exact le_trans hq2 hm
      · exact ih (if p.2 < q.2 then q else p) x (List.mem_cons_of_mem _ hx)

theorem intFoldMax_mem (v : Int) (vs : List Int) :
    intFoldMax v vs ∈ v :: vs := by
  induction vs generalizing v with
  | nil => simp [intFoldMax]
  | cons w ws ih =>
    have hstep : intFoldMax v (w :: ws) = intFoldMax (max v w) ws := rfl
    rw [hstep]
    rcases List.mem_cons.mp (ih (max v w)) with h1 | h2
    · rw [h1]
      rcases max_choice v w with hm | hm <;> rw [hm] <;> simp
    · simp only [List.mem_cons]
      tauto

theorem intFoldMax_le (v : Int) (vs : List Int) :
    ∀ x ∈ v :: vs, x ≤ intFoldMax v vs := by
  induction vs generalizing v with
  | nil =>
    intro x hx
    rcases List.mem_cons.mp hx with rfl | h
    · exact le_refl _
    · simp at h
  | cons w ws ih =>
    intro x hx
    have hstep : intFoldMax v (w :: ws) = intFoldMax (max v w) ws := rfl
    rw [hstep]
    have hm := ih (max v w)
    rcases List.mem_cons.mp hx with rfl | hx
    · exact le_trans (le_max_left x w) (hm _ (List.mem_cons_self _ _))
    · rcases List.mem_cons.mp hx with rfl | hx
      · exact le_trans (le_max_right v x) (hm _ (List.mem_cons_self _ _))
      · exact hm x (List.mem_cons_of_mem _ hx)

theorem natFoldMax_mem (v : Nat) (vs : List Nat) :
    natFoldMax v vs ∈ v :: vs := by
  induction vs generalizing v with
  | nil => simp [natFoldMax]
  | cons w ws ih =>
    have hstep : natFoldMax v (w :: ws) = natFoldMax (max v w) ws := rfl
    rw [hstep]
    rcases List.mem_cons.mp (ih (max v w)) with h1 | h2
    · rw [h1]
      rcases max_choice v w with hm | hm <;> rw [hm] <;> simp
    · simp only [List.mem_cons]
      tauto

theorem natFoldMax_le (v : Nat) (vs : List Nat) :
    ∀ x ∈ v :: vs, x ≤ natFoldMax v vs := by
  induction vs generalizing v with
  | nil =>
    intro x hx
    rcases List.mem_cons.mp hx with rfl | h
    · exact le_refl _
    · simp at h
  | cons w ws ih =>
    intro x hx
    have hstep : natFoldMax v (w :: ws) = natFoldMax (max v w) ws := rfl
    rw [hstep]
    have hm := ih (max v w)
    rcases List.mem_cons.mp hx with rfl | hx
    · exact le_trans (le_max_left x w) (hm _ (List.mem_cons_self _ _))
    · rcases List.mem_cons.mp hx with rfl | hx
      · exact le_trans (le_max_right v x) (hm _ (List.mem_cons_self _ _))
      · exact hm x (List.mem_cons_of_mem _ hx)

theorem natFoldMin_mem (v : Nat) (vs : List Nat) :
    natFoldMin v vs ∈ v :: vs := by
  induction vs generalizing v with
  | nil => simp [natFoldMin]
  | cons w ws ih =>
    have hstep : natFoldMin v (w :: ws) = natFoldMin (min v w) ws := rfl
    rw [hstep]
    rcases List.mem_cons.mp (ih (min v w)) with h1 | h2
    · rw [h1]
      rcases min_choice v w with hm | hm <;> rw [hm] <;> simp
    · simp only [List.mem_cons]
      tauto

theorem natFoldMin_le (v : Nat) (vs : List Nat) :
    ∀ x ∈ v :: vs, natFoldMin v vs ≤ x := by
  induction vs generalizing v with
  | nil =>
    intro x hx
    rcases List.mem_cons.mp hx with rfl | h
    · exact le_refl _
    · simp at h
  | cons w ws ih =>
    intro x hx
    have hstep : natFoldMin v (w :: ws) = natFoldMin (min v w) ws := rfl
    rw [hstep]
    have hm := ih (min v w)
    rcases List.mem_cons.mp hx with rfl | hx
    · exact le_trans (hm _ (List.mem_cons_self _ _)) (min_le_left x w)
    · rcases List.mem_cons.mp hx with rfl | hx
      · exact le_trans (hm _ (List.mem_cons_self _ _)) (min_le_right v x)
      · exact hm x (List.mem_cons_of_mem _ hx)

theorem toLower_toLower (c : Char) :
    Char.toLower (Char.toLower c) = Char.toLower c := by
  by_cases h : c.toNat ≥ 65 ∧ c.toNat ≤ 90
  · have hv : Nat.isValidChar (c.toNat + 32) := Or.inl (by omega)
    have h1 : Char.toLower c = Char.ofNat (c.toNat + 32) := by
      simp only [Char.toLower]
      rw [if_pos h]
    have ht : (Char.ofNat (c.toNat + 32)).toNat = c.toNat + 32 := by
      simp only [Char.ofNat]
      rw [dif_pos hv]
      rfl
    rw [h1]
    simp only [Char.toLower, ht]
    rw [if_neg (by omega)]
  · have h1 : Char.toLower c = c := by
      simp only [Char.toLower]
      rw [if_neg h]
    rw [h1, h1]

theorem toLower_ne_space {c : Char} (h : c.toLower ≠ '\x20') :
    Char.toLower (Char.toLower c) ≠ '\x20' := by
  rw [toLower_toLower]
  exact h

theorem normChar_idem (c : Char) : normChar (normChar c) = normChar c := by
  by_cases h : c.toLower = '\x20'
  · have h1 : normChar c = '_' := by
      simp only [normChar]
      rw [if_pos h]
    rw [h1]
    decide
  · have h1 : normChar c = c.toLower := by
      simp only [normChar]
      rw [if_neg h]
    rw [h1]
    simp only [normChar, toLower_toLower]
    rw [if_neg h]

theorem normalizeName_idem (s : String) :
    normalizeName (normalizeName s) = normalizeName s := by
  simp only [normalizeName]
  apply congrArg
  rw [List.map_map]
  exact List.map_congr_left (fun a _ => normChar_idem a)

theorem empty_eq_false_of_ne {df : DataFrame} (h1 : df.rows ≠ [])
    (h2 : df.cols ≠ []) : df.empty = false := by
  unfold DataFrame.empty
  cases hr : df.rows with
  | nil => exact absurd hr h1
  | cons a l =>
    cases hc : df.cols with
    | nil => exact absurd hc h2
    | cons b m => rfl

/-! ### Claim theorems -/

/-- C8: column-name normalization (lowercasing and replacing spaces with
underscores) is idempotent: normalizing a list of already-normalized
column names leaves them unchanged. -/
theorem claim_C8 (names : List String) :
    (names.map normalizeName).map normalizeName = names.map normalizeName := by
  rw [List.map_map]
  exact List.map_congr_left (fun s _ => normalizeName_idem s)

/-- C9: cleaning an empty input table returns an empty frame and the
message "No data to clean or process.", regardless of the column list, so
the check short-circuits before normalization and validation. -/
theorem claim_C9 (pdate : Cell → Option Nat) (pnum : Cell → Option Int)
    (df : DataFrame) (h : df.rows = []) :
    clean_data pdate pnum df = (⟨[], []⟩, "No data to clean or process.") := by
  have he : df.empty = true := by
    unfold DataFrame.empty
    rw [h]
    rfl
  simp [clean_data, he]

/-- C9 witness: the cleaning of a concrete row-less frame whose header
would fail validation still returns the no-data message. -/
theorem claim_C9_witness :
    (DataFrame.mk ["Date"] []).rows = [] ∧
      clean_data pdateW pnumW (DataFrame.mk ["Date"] []) =
        (⟨[], []⟩, "No data to clean or process.") :=
  ⟨rfl, claim_C9 pdateW pnumW (DataFrame.mk ["Date"] []) rfl⟩

/-- C4: on an empty Cleaned Record Set, each of the five chart categories
yields exactly the one statement "No data available for insights.". -/
theorem claim_C4 (data : DataFrame) (h : data.rows = []) :
    generate_insights "sentiment" data =
        [Insight.msg "No data available for insights."] ∧
      generate_insights "engagement_trend" data =
        [Insight.msg "No data available for insights."] ∧
      generate_insights "platform_engagements" data =
        [Insight.msg "No data available for insights."] ∧
      generate_insights "media_type_mix" data =
        [Insight.msg "No data available for insights."] ∧
      generate_insights "top_locations" data =
        [Insight.msg "No data available for insights."] := by
  have he : data.empty = true := by
    unfold DataFrame.empty
    rw [h]
    rfl
  refine ⟨?_, ?_, ?_, ?_, ?_⟩ <;> simp [generate_insights, he]

/-- C4 witness: the sentiment category on a concrete empty frame yields
exactly the no-data statement. -/
theorem claim_C4_witness :
    (DataFrame.mk [] []).rows = [] ∧
      generate_insights "sentiment" (DataFrame.mk [] []) =
        [Insight.msg "No data available for insights."] :=
  ⟨rfl, (claim_C4 (DataFrame.mk [] []) rfl).1⟩

/-- C10: on a non-empty frame, any chart category outside the five known
ones yields the empty insight list: no statements and no error. -/
theorem claim_C10 (ct : String) (data : DataFrame)
    (h1 : data.rows ≠ []) (h2 : data.cols ≠ [])
    (hct : ct ∉ ["sentiment", "engagement_trend", "platform_engagements",
      "media_type_mix", "top_locations"]) :
    generate_insights ct data = [] := by
  have he : data.empty = false := empty_eq_false_of_ne h1 h2
  simp only [List.mem_cons, List.mem_singleton, not_or] at hct
  obtain ⟨ha, hb, hc, hd, he2, -⟩ := hct
  simp [generate_insights, he, ha, hb, hc, hd, he2]

/-- C10 witness: the unknown category "pie" on a concrete non-empty frame
yields no insights. -/
theorem claim_C10_witness :
    cleanW.rows ≠ [] ∧ cleanW.cols ≠ [] ∧
      ("pie" : String) ∉ ["sentiment", "engagement_trend",
        "platform_engagements", "media_type_mix", "top_locations"] ∧
      generate_insights "pie" cleanW = [] :=
  ⟨by decide, by decide, by decide,
    claim_C10 "pie" cleanW (by decide) (by decide) (by decide)⟩

theorem clean_data_success (pdate : Cell → Option Nat)
    (pnum : Cell → Option Int) (df : DataFrame) (h1 : df.rows ≠ [])
    (hall : ∀ c ∈ requiredColumns, c ∈ df.cols.map normalizeName) :
    clean_data pdate pnum df =
      (⟨df.cols.map normalizeName,
        (df.rows.map (transformRow pdate pnum (df.cols.map normalizeName))).filter
          (fun r => isDateCell (cellAt (df.cols.map normalizeName) "date" r))⟩,
        "") := by
  have h2 : df.cols ≠ [] := by
    have hd := hall "date" (by simp [requiredColumns])
    intro hc
    rw [hc] at hd
    simp at hd
  have he : df.empty = false := empty_eq_false_of_ne h1 h2
  have hmiss : requiredColumns.filter
      (fun c => decide (c ∉ df.cols.map normalizeName)) = [] := by
    rw [List.filter_eq_nil_iff]
    intro c hc
    simp [hall c hc]
  unfold clean_data
  rw [he]
  rw [if_neg Bool.false_ne_true]
  dsimp only
  rw [hmiss]
  rw [if_pos rfl]

theorem clean_data_missing (pdate : Cell → Option Nat)
    (pnum : Cell → Option Int) (df : DataFrame) (h1 : df.rows ≠ [])
    (h2 : df.cols ≠ [])
    (hmiss : requiredColumns.filter
      (fun c => decide (c ∉ df.cols.map normalizeName)) ≠ []) :
    clean_data pdate pnum df =
      (⟨[], []⟩, missingMessage (requiredColumns.filter
        (fun c => decide (c ∉ df.cols.map normalizeName)))) := by
  have he : df.empty = false := empty_eq_false_of_ne h1 h2
  unfold clean_data
  rw [he]
  rw [if_neg Bool.false_ne_true]
  dsimp only
  rw [if_neg hmiss]

/-- C1 (amended): for a non-empty input table, the set of reported
missing columns is exactly the set of required columns absent from the
normalized header; when it is non-empty, cleaning returns an empty frame
and the missing-column message listing those normalized names; when all
six required columns are present, no missing-column failure occurs (the
error string is empty). -/
theorem claim_C1 (pdate : Cell → Option Nat) (pnum : Cell → Option Int)
    (df : DataFrame) (h1 : df.rows ≠ []) (h2 : df.cols ≠ []) :
    (∀ c, c ∈ requiredColumns.filter
          (fun c => decide (c ∉ df.cols.map normalizeName)) ↔
        c ∈ requiredColumns ∧ c ∉ df.cols.map normalizeName) ∧
      (requiredColumns.filter
          (fun c => decide (c ∉ df.cols.map normalizeName)) ≠ [] →
        clean_data pdate pnum df =
          (⟨[], []⟩, missingMessage (requiredColumns.filter
            (fun c => decide (c ∉ df.cols.map normalizeName))))) ∧
      ((∀ c ∈ requiredColumns, c ∈ df.cols.map normalizeName) →
        (clean_data pdate pnum df).2 = "") := by
  refine ⟨?_, ?_, ?_⟩
  · intro c
    rw [List.mem_filter]
    simp
  · intro hmiss
    exact clean_data_missing pdate pnum df h1 h2 hmiss
  · intro hall
    rw [clean_data_success pdate pnum df h1 hall]

/-- C1 counterexample: for the concrete header lacking only `Media Type`,
the error message lists the missing column by its normalized name
"media_type"; it is not the message that lists the missing columns with
their human-readable capitalization ("Media Type"), as the claim
states. -/
theorem claim_C1_counterexample :
    (clean_data pdateW pnumW rawMissingW).2 = missingMessage ["media_type"] ∧
      (clean_data pdateW pnumW rawMissingW).2 ≠
        specMissingMessage ["media_type"] :=
  ⟨by decide, by decide⟩

/-- C1 witness: the amended claim applied to the concrete header lacking
only `Media Type`. -/
theorem claim_C1_witness :
    rawMissingW.rows ≠ [] ∧ rawMissingW.cols ≠ [] ∧
      clean_data pdateW pnumW rawMissingW =
        (⟨[], []⟩, missingMessage (requiredColumns.filter
          (fun c => decide (c ∉ rawMissingW.cols.map normalizeName)))) :=
  ⟨by decide, by decide,
    (claim_C1 pdateW pnumW rawMissingW (by decide) (by decide)).2.1 (by decide)⟩

theorem colIdx_some_of_mem {c : String} {l : List String} (h : c ∈ l) :
    ∃ i, colIdx c l = some i := by
  cases hx : colIdx c l with
  | none => exact absurd h (colIdx_eq_none.mp hx)
  | some i => exact ⟨i, rfl⟩

theorem cellAt_transform_date (pdate : Cell → Option Nat)
    (pnum : Cell → Option Int) (ncols : List String) (r : List Cell)
    (hd : "date" ∈ ncols) (hlen : r.length = ncols.length) :
    cellAt ncols "date" (transformRow pdate pnum ncols r) =
      coerceDateCell pdate (cellAt ncols "date" r) := by
  obtain ⟨i, hi⟩ := colIdx_some_of_mem hd
  unfold transformRow
  rw [cellAt_setCol_ne ncols _ _ (by decide)]
  exact cellAt_setCol_self ncols _ _ hi (by rw [hlen]; exact colIdx_lt_length hi)

theorem cellAt_transform_eng (pdate : Cell → Option Nat)
    (pnum : Cell → Option Int) (ncols : List String) (r : List Cell)
    (he : "engagements" ∈ ncols) (hlen : r.length = ncols.length) :
    cellAt ncols "engagements" (transformRow pdate pnum ncols r) =
      coerceEngCell pnum (cellAt ncols "engagements" r) := by
  obtain ⟨j, hj⟩ := colIdx_some_of_mem he
  unfold transformRow
  have hl : j < (setCol ncols "date" (coerceDateCell pdate) r).length := by
    rw [setCol_length, hlen]
    exact colIdx_lt_length hj
  rw [cellAt_setCol_self ncols _ _ hj hl]
  rw [cellAt_setCol_ne ncols _ _ (by decide)]

theorem rect_rows {df : DataFrame} (hrect : df.rectangular = true) :
    ∀ r ∈ df.rows, r.length = (df.cols.map normalizeName).length := by
  intro r hr
  unfold DataFrame.rectangular at hrect
  rw [List.all_eq_true] at hrect
  have hbeq := hrect r hr
  rw [List.length_map]
  exact eq_of_beq hbeq

/-- C2: on a non-empty table with all six required columns, the cleaned
rows are exactly the transforms of the input rows whose date cell parses
(in order); rows whose date cell fails to parse are absent, and the
cleaned row count is at most the input row count. -/
theorem claim_C2 (pdate : Cell → Option Nat) (pnum : Cell → Option Int)
    (df : DataFrame) (h1 : df.rows ≠ []) (hrect : df.rectangular = true)
    (hall : ∀ c ∈ requiredColumns, c ∈ df.cols.map normalizeName) :
    (clean_data pdate pnum df).1.rows =
        (df.rows.filter (fun r =>
            (pdate (cellAt (df.cols.map normalizeName) "date" r)).isSome)).map
          (transformRow pdate pnum (df.cols.map normalizeName)) ∧
      (clean_data pdate pnum df).1.rows.length ≤ df.rows.length := by
  have hd : "date" ∈ df.cols.map normalizeName :=
    hall "date" (by simp [requiredColumns])
  rw [clean_data_success pdate pnum df h1 hall]
  constructor
  · dsimp only
    rw [List.filter_map]
    apply congrArg
    apply List.filter_congr
    intro r hr
    rw [Function.comp_apply,
      cellAt_transform_date pdate pnum _ r hd (rect_rows hrect r hr)]
    cases hp : pdate (cellAt (df.cols.map normalizeName) "date" r) <;>
      simp [coerceDateCell, isDateCell, hp]
  · calc ((df.rows.map (transformRow pdate pnum (df.cols.map normalizeName))).filter
        (fun r => isDateCell (cellAt (df.cols.map normalizeName) "date" r))).length
        ≤ (df.rows.map (transformRow pdate pnum (df.cols.map normalizeName))).length :=
          List.length_filter_le _ _
      _ = df.rows.length := List.length_map _ _

/-- C2 witness: the spec section 8 example — two raw rows, one good date,
one bad date — applied to the claim. -/
theorem claim_C2_witness :
    rawW.rows ≠ [] ∧ rawW.rectangular = true ∧
      (∀ c ∈ requiredColumns, c ∈ rawW.cols.map normalizeName) ∧
      ((clean_data pdateW pnumW rawW).1.rows =
          (rawW.rows.filter (fun r =>
              (pdateW (cellAt (rawW.cols.map normalizeName) "date" r)).isSome)).map
            (transformRow pdateW pnumW (rawW.cols.map normalizeName)) ∧
        (clean_data pdateW pnumW rawW).1.rows.length ≤ rawW.rows.length) :=
  ⟨by decide, by decide, by decide,
    claim_C2 pdateW pnumW rawW (by decide) (by decide) (by decide)⟩

/-- C3: every retained cleaned row comes from an input row, and its
cleaned engagements value is `0` when the original engagements cell does
not parse as a number (or is absent), and is the parsed value — negative
values included, unaltered — when it does. -/
theorem claim_C3 (pdate : Cell → Option Nat) (pnum : Cell → Option Int)
    (df : DataFrame) (h1 : df.rows ≠ []) (hrect : df.rectangular = true)
    (hall : ∀ c ∈ requiredColumns, c ∈ df.cols.map normalizeName) :
    ∀ row ∈ (clean_data pdate pnum df).1.rows,
      ∃ r ∈ df.rows,
        row = transformRow pdate pnum (df.cols.map normalizeName) r ∧
        (pnum (cellAt (df.cols.map normalizeName) "engagements" r) = none →
          cellAt (df.cols.map normalizeName) "engagements" row = Cell.num 0) ∧
        (∀ q, pnum (cellAt (df.cols.map normalizeName) "engagements" r) = some q →
          cellAt (df.cols.map normalizeName) "engagements" row = Cell.num q) := by
  have heng : "engagements" ∈ df.cols.map normalizeName :=
    hall "engagements" (by simp [requiredColumns])
  intro row hrow
  rw [clean_data_success pdate pnum df h1 hall] at hrow
  have hrow2 : row ∈ df.rows.map
      (transformRow pdate pnum (df.cols.map normalizeName)) :=
    List.mem_of_mem_filter hrow
  obtain ⟨r, hr, hteq⟩ := List.mem_map.mp hrow2
  have hcell : cellAt (df.cols.map normalizeName) "engagements" row =
      coerceEngCell pnum (cellAt (df.cols.map normalizeName) "engagements" r) := by
    rw [← hteq]
    exact cellAt_transform_eng pdate pnum _ r heng (rect_rows hrect r hr)
  refine ⟨r, hr, hteq.symm, ?_, ?_⟩
  · intro hn
    rw [hcell, coerceEngCell, hn]
    rfl
  · intro q hq
    rw [hcell, coerceEngCell, hq]
    rfl

/-- C3 witness: the spec section 8 example applied to the claim; the
retained row's engagements value is the parsed `10`. -/
theorem claim_C3_witness :
    rawW.rows ≠ [] ∧ rawW.rectangular = true ∧
      (∀ c ∈ requiredColumns, c ∈ rawW.cols.map normalizeName) ∧
      (∀ row ∈ (clean_data pdateW pnumW rawW).1.rows,
        ∃ r ∈ rawW.rows,
          row = transformRow pdateW pnumW (rawW.cols.map normalizeName) r ∧
          (pnumW (cellAt (rawW.cols.map normalizeName) "engagements" r) = none →
            cellAt (rawW.cols.map normalizeName) "engagements" row = Cell.num 0) ∧
          (∀ q, pnumW (cellAt (rawW.cols.map normalizeName) "engagements" r) = some q →
            cellAt (rawW.cols.map normalizeName) "engagements" row = Cell.num q)) :=
  ⟨by decide, by decide, by decide,
    claim_C3 pdateW pnumW rawW (by decide) (by decide) (by decide)⟩

/-- C6: on the concrete cleaned frame whose per-platform engagement sums
are A: 300 and B: 700, the platform_engagements insights report B as top
with 700 engagements, A as second with 300, and 2 distinct platforms. -/
theorem claim_C6 :
    generate_insights "platform_engagements" cleanW =
      [Insight.topPlatform "B" 700, Insight.secondPlatform "A" 300,
        Insight.platformCount 2] := by
  decide

theorem cleanedRS_row {data : DataFrame} {r : List Cell}
    (hwf : cleanedRecordSet data = true) (hr : r ∈ data.rows) :
    wfRow data.cols r = true := by
  unfold cleanedRecordSet at hwf
  rw [List.all_eq_true] at hwf
  exact hwf r hr

theorem wfRow_fields {cols : List String} {r : List Cell}
    (h : wfRow cols r = true) :
    isDateCell (cellAt cols "date" r) = true ∧
      isNumCell (cellAt cols "engagements" r) = true ∧
      isStrCell (cellAt cols "platform" r) = true ∧
      isStrCell (cellAt cols "sentiment" r) = true ∧
      isStrCell (cellAt cols "location" r) = true ∧
      isStrCell (cellAt cols "media_type" r) = true := by
  unfold wfRow at h
  simp only [Bool.and_eq_true] at h
  exact ⟨h.1.1.1.1.1, h.1.1.1.1.2, h.1.1.1.2, h.1.1.2, h.1.2, h.2⟩

theorem isStrCell_iff {c : Cell} : isStrCell c = true ↔ ∃ s, c = Cell.str s := by
  cases c <;> simp [isStrCell]

theorem isDateCell_iff {c : Cell} : isDateCell c = true ↔ ∃ d, c = Cell.date d := by
  cases c <;> simp [isDateCell]

theorem mem_of_cellAt_ne_missing {cols : List String} {cname : String}
    {r : List Cell} (h : cellAt cols cname r ≠ Cell.missing) : cname ∈ cols := by
  by_contra hmem
  apply h
  unfold cellAt
  rw [colIdx_eq_none.mpr hmem]

theorem mem_colStrVals {data : DataFrame} {cname s : String} :
    s ∈ colStrVals data cname ↔
      ∃ r ∈ data.rows, cellAt data.cols cname r = Cell.str s := by
  unfold colStrVals
  rw [List.mem_filterMap]
  constructor
  · rintro ⟨r, hr, hs⟩
    refine ⟨r, hr, ?_⟩
    cases hc : cellAt data.cols cname r <;> rw [hc] at hs <;>
      simp [strVal] at hs
    rw [hs]
  · rintro ⟨r, hr, hc⟩
    exact ⟨r, hr, by rw [hc]; rfl⟩

theorem valueCounts_perm (vals : List String) :
    (valueCounts vals).Perm (vals.dedup.map (fun s => (s, vals.count s))) :=
  sortLeB_perm _ _

theorem valueCounts_length (vals : List String) :
    (valueCounts vals).length = vals.dedup.length := by
  rw [(valueCounts_perm vals).length_eq, List.length_map]

theorem valueCounts_sorted (vals : List String) :
    (valueCounts vals).Pairwise (fun a b => decide (b.2 ≤ a.2) = true) := by
  apply pairwise_sortLeB
  · intro x y z hxy hyz
    simp only [decide_eq_true_iff] at hxy hyz ⊢
    omega
  · intro x y
    simp only [decide_eq_true_iff]
    omega

theorem gi_locations (data : DataFrame) (he : data.empty = false) :
    generate_insights "top_locations" data =
      locationAux ((valueCounts (colStrVals data "location")).take 5) := by
  unfold generate_insights
  rw [he]
  rw [if_neg Bool.false_ne_true]
  rw [if_neg (by decide), if_neg (by decide), if_neg (by decide),
    if_neg (by decide), if_pos rfl]

theorem gi_trend (data : DataFrame) (he : data.empty = false) :
    generate_insights "engagement_trend" data = trendAux data (trendKeys data) := by
  unfold generate_insights
  rw [he]
  rw [if_neg Bool.false_ne_true]
  rw [if_neg (by decide), if_pos rfl]

/-- C7: on a non-empty Cleaned Record Set, the top_locations insights are
cut to the top-5 count ranking: there are `min 3 n` statements for `n`
distinct locations, the first reports a location of maximal occurrence
count with its count, the second exists exactly when at least two distinct
locations do and then reports a location distinct from the top one whose
count is maximal among the remaining locations, the third likewise for at
least three, and every emitted statement is a ranked-location statement
(no placeholders). -/
theorem claim_C7 (data : DataFrame) (hwf : cleanedRecordSet data = true)
    (h1 : data.rows ≠ []) :
    (generate_insights "top_locations" data).length =
        min 3 (colStrVals data "location").dedup.length ∧
      (∃ l c, (generate_insights "top_locations" data).head? =
          some (Insight.topLocation l c) ∧
          (colStrVals data "location").count l = c ∧
          ∀ s ∈ colStrVals data "location",
            (colStrVals data "location").count s ≤ c) ∧
      (2 ≤ (colStrVals data "location").dedup.length →
        ∃ l0 c0 l1 c1,
          (generate_insights "top_locations" data).head? =
            some (Insight.topLocation l0 c0) ∧
          (generate_insights "top_locations" data)[1]? =
            some (Insight.secondLocation l1 c1) ∧
          (colStrVals data "location").count l0 = c0 ∧
          (colStrVals data "location").count l1 = c1 ∧
          l1 ≠ l0 ∧ c1 ≤ c0 ∧
          ∀ s ∈ colStrVals data "location", s ≠ l0 →
            (colStrVals data "location").count s ≤ c1) ∧
      (3 ≤ (colStrVals data "location").dedup.length →
        ∃ l0 c0 l1 c1 l2 c2,
          (generate_insights "top_locations" data).head? =
            some (Insight.topLocation l0 c0) ∧
          (generate_insights "top_locations" data)[1]? =
            some (Insight.secondLocation l1 c1) ∧
          (generate_insights "top_locations" data)[2]? =
            some (Insight.thirdLocation l2 c2) ∧
          (colStrVals data "location").count l0 = c0 ∧
          (colStrVals data "location").count l1 = c1 ∧
          (colStrVals data "location").count l2 = c2 ∧
          l1 ≠ l0 ∧ l2 ≠ l0 ∧ l2 ≠ l1 ∧ c1 ≤ c0 ∧ c2 ≤ c1 ∧
          (∀ s ∈ colStrVals data "location", s ≠ l0 →
            (colStrVals data "location").count s ≤ c1) ∧
          ∀ s ∈ colStrVals data "location", s ≠ l0 → s ≠ l1 →
            (colStrVals data "location").count s ≤ c2) ∧
      (∀ x ∈ generate_insights "top_locations" data, ∃ l c,
        x = Insight.topLocation l c ∨ x = Insight.secondLocation l c ∨
          x = Insight.thirdLocation l c) := by
  obtain ⟨r0, rs, hrows⟩ : ∃ r rs, data.rows = r :: rs := by
    cases hr : data.rows with
    | nil => exact absurd hr h1
    | cons a l => exact ⟨a, l, rfl⟩
  have hr0 : r0 ∈ data.rows := by rw [hrows]; exact List.mem_cons_self _ _
  have hwr := cleanedRS_row hwf hr0
  obtain ⟨s0, hs0⟩ := isStrCell_iff.mp (wfRow_fields hwr).2.2.2.2.1
  have hs0v : s0 ∈ colStrVals data "location" :=
    mem_colStrVals.mpr ⟨r0, hr0, hs0⟩
  have hcolsne : data.cols ≠ [] :=
    List.ne_nil_of_mem (mem_of_cellAt_ne_missing (by rw [hs0]; simp))
  have he : data.empty = false := empty_eq_false_of_ne h1 hcolsne
  rw [gi_locations data he]
  have hvne : colStrVals data "location" ≠ [] := List.ne_nil_of_mem hs0v
  have hlen := valueCounts_length (colStrVals data "location")
  have hperm := valueCounts_perm (colStrVals data "location")
  have hsorted := valueCounts_sorted (colStrVals data "location")
  have hdlen : 1 ≤ (colStrVals data "location").dedup.length := by
    have : (colStrVals data "location").dedup ≠ [] := by
      rw [Ne, List.dedup_eq_nil]
      exact hvne
    exact List.length_pos.mpr this
  cases hvc : valueCounts (colStrVals data "location") with
  | nil =>
    rw [hvc] at hlen
    simp at hlen
    omega
  | cons p0 tl =>
    rw [hvc] at hperm hsorted hlen
    have hp0mem : p0 ∈ (colStrVals data "location").dedup.map
        (fun s => (s, (colStrVals data "location").count s)) :=
      hperm.mem_iff.mp (List.mem_cons_self _ _)
    obtain ⟨l0, hl0d, hl0eq⟩ := List.mem_map.mp hp0mem
    have hp0fst : p0.1 = l0 := by rw [← hl0eq]
    have hp0snd : p0.2 = (colStrVals data "location").count l0 := by
      rw [← hl0eq]
    have hcount0 : (colStrVals data "location").count p0.1 = p0.2 := by
      rw [hp0fst, hp0snd]
    have hcountpair : ∀ p ∈ (p0 :: tl),
        (colStrVals data "location").count p.1 = p.2 := by
      intro p hp
      obtain ⟨l, hld, hleq⟩ := List.mem_map.mp (hperm.mem_iff.mp hp)
      rw [← hleq]
    have hkeys : ((colStrVals data "location").dedup.map
        (fun s => (s, (colStrVals data "location").count s))).map Prod.fst =
        (colStrVals data "location").dedup := by
      rw [List.map_map]
      have hcomp : (Prod.fst ∘ fun s =>
          (s, (colStrVals data "location").count s)) = id := rfl
      rw [hcomp, List.map_id]
    have hnodup : ((p0 :: tl).map Prod.fst).Nodup := by
      apply ((hperm.map Prod.fst).nodup_iff).mpr
      rw [hkeys]
      exact List.nodup_dedup _
    have hmax : ∀ s ∈ colStrVals data "location",
        (colStrVals data "location").count s ≤ p0.2 := by
      intro s hs
      have hsd : s ∈ (colStrVals data "location").dedup :=
        List.mem_dedup.mpr hs
      have hpair : (s, (colStrVals data "location").count s) ∈ p0 :: tl :=
        hperm.mem_iff.mpr (List.mem_map_of_mem _ hsd)
      rcases List.mem_cons.mp hpair with heq | hmem
      · have := congrArg Prod.snd heq
        simp at this
        rw [this]
      · have hle := (List.pairwise_cons.mp hsorted).1 _ hmem
        simp only [decide_eq_true_iff] at hle
        exact hle
    cases tl with
    | nil =>
      have hn : (colStrVals data "location").dedup.length = 1 := by
        simp at hlen
        omega
      rw [hn]
      refine ⟨by simp [locationAux], ⟨p0.1, p0.2, by simp [locationAux],
        hcount0, hmax⟩, ?_, ?_, ?_⟩
      · intro h2
        omega
      · intro h3
        omega
      · intro x hx
        simp [locationAux] at hx
        exact ⟨p0.1, p0.2, Or.inl (by rw [hx])⟩
    | cons p1 tl2 =>
      have hcount1 : (colStrVals data "location").count p1.1 = p1.2 :=
        hcountpair p1 (List.mem_cons_of_mem _ (List.mem_cons_self _ _))
      have h10 : p1.2 ≤ p0.2 := by
        have hle := (List.pairwise_cons.mp hsorted).1 _
          (List.mem_cons_self _ _)
        simp only [decide_eq_true_iff] at hle
        exact hle
      have hmax2 : ∀ s ∈ colStrVals data "location", s ≠ p0.1 →
          (colStrVals data "location").count s ≤ p1.2 := by
        intro s hs hne0
        have hsd : s ∈ (colStrVals data "location").dedup :=
          List.mem_dedup.mpr hs
        have hpair : (s, (colStrVals data "location").count s) ∈
            p0 :: p1 :: tl2 :=
          hperm.mem_iff.mpr (List.mem_map_of_mem _ hsd)
        rcases List.mem_cons.mp hpair with heq | hmem
        · exact absurd (congrArg Prod.fst heq) hne0
        · rcases List.mem_cons.mp hmem with heq | hmem2
          · have hcs := congrArg Prod.snd heq
            simp at hcs
            rw [hcs]
          · have hle := (List.pairwise_cons.mp
              (List.pairwise_cons.mp hsorted).2).1 _ hmem2
            simp only [decide_eq_true_iff] at hle
            exact hle
      have h01 : p1.1 ≠ p0.1 := by
        have hh := hnodup
        simp only [List.map_cons] at hh
        rw [List.nodup_cons] at hh
        intro he2
        exact hh.1 (by rw [← he2]; exact List.mem_cons_self _ _)
      cases tl2 with
      | nil =>
        have hn : (colStrVals data "location").dedup.length = 2 := by
          simp at hlen
          omega
        rw [hn]
        refine ⟨by simp [locationAux], ⟨p0.1, p0.2, by simp [locationAux],
          hcount0, hmax⟩, ?_, ?_, ?_⟩
        · intro h2
          exact ⟨p0.1, p0.2, p1.1, p1.2, by simp [locationAux],
            by simp [locationAux], hcount0, hcount1, h01, h10, hmax2⟩
        · intro h3
          omega
        · intro x hx
          simp [locationAux] at hx
          rcases hx with hx | hx
          · exact ⟨p0.1, p0.2, Or.inl (by rw [hx])⟩
          · exact ⟨p1.1, p1.2, Or.inr (Or.inl (by rw [hx]))⟩
      | cons p2 tl3 =>
        have hn : 3 ≤ (colStrVals data "location").dedup.length := by
          rw [← hlen]
          simp only [List.length_cons]
          omega
        have hmin : min 3 (colStrVals data "location").dedup.length = 3 := by
          omega
        rw [hmin]
        have hcount2 : (colStrVals data "location").count p2.1 = p2.2 :=
          hcountpair p2 (List.mem_cons_of_mem _
            (List.mem_cons_of_mem _ (List.mem_cons_self _ _)))
        have h21v : p2.2 ≤ p1.2 := by
          have hle := (List.pairwise_cons.mp
            (List.pairwise_cons.mp hsorted).2).1 _ (List.mem_cons_self _ _)
          simp only [decide_eq_true_iff] at hle
          exact hle
        have h20 : p2.1 ≠ p0.1 := by
          have hh := hnodup
          simp only [List.map_cons] at hh
          rw [List.nodup_cons] at hh
          intro he2
          exact hh.1 (by
            rw [← he2]
            exact List.mem_cons_of_mem _ (List.mem_cons_self _ _))
        have h21 : p2.1 ≠ p1.1 := by
          have hh := hnodup
          simp only [List.map_cons] at hh
          rw [List.nodup_cons] at hh
          have hh2 := hh.2
          rw [List.nodup_cons] at hh2
          intro he2
          exact hh2.1 (by rw [← he2]; exact List.mem_cons_self _ _)
        have hmax3 : ∀ s ∈ colStrVals data "location", s ≠ p0.1 → s ≠ p1.1 →
            (colStrVals data "location").count s ≤ p2.2 := by
          intro s hs hne0 hne1
          have hsd : s ∈ (colStrVals data "location").dedup :=
            List.mem_dedup.mpr hs
          have hpair : (s, (colStrVals data "location").count s) ∈
              p0 :: p1 :: p2 :: tl3 :=
            hperm.mem_iff.mpr (List.mem_map_of_mem _ hsd)
          rcases List.mem_cons.mp hpair with heq | hmem
          · exact absurd (congrArg Prod.fst heq) hne0
          · rcases List.mem_cons.mp hmem with heq | hmem2
            · exact absurd (congrArg Prod.fst heq) hne1
            · rcases List.mem_cons.mp hmem2 with heq | hmem3
              · have hcs := congrArg Prod.snd heq
                simp at hcs
                rw [hcs]
              · have hle := (List.pairwise_cons.mp (List.pairwise_cons.mp
                  (List.pairwise_cons.mp hsorted).2).2).1 _ hmem3
                simp only [decide_eq_true_iff] at hle
                exact hle
        refine ⟨by simp [locationAux], ⟨p0.1, p0.2, by simp [locationAux],
          hcount0, hmax⟩, ?_, ?_, ?_⟩
        · intro h2
          exact ⟨p0.1, p0.2, p1.1, p1.2, by simp [locationAux],
            by simp [locationAux], hcount0, hcount1, h01, h10, hmax2⟩
        · intro h3
          exact ⟨p0.1, p0.2, p1.1, p1.2, p2.1, p2.2, by simp [locationAux],
            by simp [locationAux], by simp [locationAux], hcount0, hcount1,
            hcount2, h01, h20, h21, h10, h21v, hmax2, hmax3⟩
        · intro x hx
          simp [locationAux] at hx
          rcases hx with hx | hx | hx
          · exact ⟨p0.1, p0.2, Or.inl (by rw [hx])⟩
          · exact ⟨p1.1, p1.2, Or.inr (Or.inl (by rw [hx]))⟩
          · exact ⟨p2.1, p2.2, Or.inr (Or.inr (by rw [hx]))⟩

/-- C7 witness: the claim applied to the concrete cleaned frame with two
distinct locations. -/
theorem claim_C7_witness :
    cleanedRecordSet cleanW = true ∧ cleanW.rows ≠ [] ∧
      ((generate_insights "top_locations" cleanW).length =
          min 3 (colStrVals cleanW "location").dedup.length ∧
        (∃ l c, (generate_insights "top_locations" cleanW).head? =
            some (Insight.topLocation l c) ∧
            (colStrVals cleanW "location").count l = c ∧
            ∀ s ∈ colStrVals cleanW "location",
              (colStrVals cleanW "location").count s ≤ c) ∧
        (2 ≤ (colStrVals cleanW "location").dedup.length →
          ∃ l0 c0 l1 c1,
            (generate_insights "top_locations" cleanW).head? =
              some (Insight.topLocation l0 c0) ∧
            (generate_insights "top_locations" cleanW)[1]? =
              some (Insight.secondLocation l1 c1) ∧
            (colStrVals cleanW "location").count l0 = c0 ∧
            (colStrVals cleanW "location").count l1 = c1 ∧
            l1 ≠ l0 ∧ c1 ≤ c0 ∧
            ∀ s ∈ colStrVals cleanW "location", s ≠ l0 →
              (colStrVals cleanW "location").count s ≤ c1) ∧
        (3 ≤ (colStrVals cleanW "location").dedup.length →
          ∃ l0 c0 l1 c1 l2 c2,
            (generate_insights "top_locations" cleanW).head? =
              some (Insight.topLocation l0 c0) ∧
            (generate_insights "top_locations" cleanW)[1]? =
              some (Insight.secondLocation l1 c1) ∧
            (generate_insights "top_locations" cleanW)[2]? =
              some (Insight.thirdLocation l2 c2) ∧
            (colStrVals cleanW "location").count l0 = c0 ∧
            (colStrVals cleanW "location").count l1 = c1 ∧
            (colStrVals cleanW "location").count l2 = c2 ∧
            l1 ≠ l0 ∧ l2 ≠ l0 ∧ l2 ≠ l1 ∧ c1 ≤ c0 ∧ c2 ≤ c1 ∧
            (∀ s ∈ colStrVals cleanW "location", s ≠ l0 →
              (colStrVals cleanW "location").count s ≤ c1) ∧
            ∀ s ∈ colStrVals cleanW "location", s ≠ l0 → s ≠ l1 →
              (colStrVals cleanW "location").count s ≤ c2) ∧
        (∀ x ∈ generate_insights "top_locations" cleanW, ∃ l c,
          x = Insight.topLocation l c ∨ x = Insight.secondLocation l c ∨
            x = Insight.thirdLocation l c)) :=
  ⟨by decide, by decide, claim_C7 cleanW (by decide) (by decide)⟩

/-- C5: on a non-empty Cleaned Record Set, the engagement_trend insights
are exactly, in order: the peak statement naming a date of maximal
per-date engagement sum together with that maximal sum, the average
statement carrying the mean of the per-date sums (sum of the per-date
sums over the number of distinct dates), and the date-range statement
carrying the minimum and maximum dates occurring in the series. -/
theorem claim_C5 (data : DataFrame) (hwf : cleanedRecordSet data = true)
    (h1 : data.rows ≠ []) :
    ∃ d s m lo hi,
      generate_insights "engagement_trend" data =
        [Insight.peakEngagement d s, Insight.avgEngagement m,
          Insight.dateRange lo hi] ∧
      d ∈ dateVals data ∧ daySum data d = s ∧
      (∀ k ∈ dateVals data, daySum data k ≤ s) ∧
      m = ((((dateVals data).dedup.map (daySum data)).sum : Int) : ℚ) /
        (((dateVals data).dedup.length : Nat) : ℚ) ∧
      lo ∈ dateVals data ∧ hi ∈ dateVals data ∧
      (∀ k ∈ dateVals data, lo ≤ k ∧ k ≤ hi) := by
  obtain ⟨r0, rs, hrows⟩ : ∃ r rs, data.rows = r :: rs := by
    cases hr : data.rows with
    | nil => exact absurd hr h1
    | cons a l => exact ⟨a, l, rfl⟩
  have hr0 : r0 ∈ data.rows := by rw [hrows]; exact List.mem_cons_self _ _
  have hwr := cleanedRS_row hwf hr0
  obtain ⟨d0, hd0⟩ := isDateCell_iff.mp (wfRow_fields hwr).1
  have hd0p : (d0, numVal (cellAt data.cols "engagements" r0)) ∈
      datePairs data := by
    unfold datePairs
    rw [List.mem_filterMap]
    exact ⟨r0, hr0, by rw [hd0]⟩
  have hd0v : d0 ∈ dateVals data := by
    unfold dateVals
    exact List.mem_map_of_mem Prod.fst hd0p
  have hcolsne : data.cols ≠ [] :=
    List.ne_nil_of_mem (mem_of_cellAt_ne_missing (by rw [hd0]; simp))
  have he : data.empty = false := empty_eq_false_of_ne h1 hcolsne
  rw [gi_trend data he]
  have hperm : (trendKeys data).Perm (dateVals data).dedup := sortLeB_perm _ _
  have hmemk : ∀ k, k ∈ trendKeys data ↔ k ∈ dateVals data := by
    intro k
    rw [hperm.mem_iff, List.mem_dedup]
  have hkne : trendKeys data ≠ [] := by
    intro hk
    have hmm := (hmemk d0).mpr hd0v
    rw [hk] at hmm
    exact absurd hmm (List.not_mem_nil d0)
  cases hk : trendKeys data with
  | nil => exact absurd hk hkne
  | cons k0 ks =>
    rw [hk] at hperm
    simp only [hk] at hmemk
    have hpkmem := idxmaxFrom_mem (k0, daySum data k0)
      (ks.map fun k => (k, daySum data k))
    have hpkle := idxmaxFrom_le (k0, daySum data k0)
      (ks.map fun k => (k, daySum data k))
    have hpairs : ∀ q ∈ ((k0, daySum data k0) ::
        ks.map fun k => (k, daySum data k)),
        q.1 ∈ (k0 :: ks) ∧ q.2 = daySum data q.1 := by
      intro q hq
      rcases List.mem_cons.mp hq with rfl | hq
      · exact ⟨List.mem_cons_self _ _, rfl⟩
      · obtain ⟨k, hk2, hkeq⟩ := List.mem_map.mp hq
        rw [← hkeq]
        exact ⟨List.mem_cons_of_mem _ hk2, rfl⟩
    set pk := idxmaxFrom (k0, daySum data k0)
      (ks.map fun k => (k, daySum data k)) with hpk
    obtain ⟨hpk1, hpk2⟩ := hpairs pk hpkmem
    set mx := intFoldMax (daySum data k0) (ks.map (daySum data)) with hmx
    have hmxmem := intFoldMax_mem (daySum data k0) (ks.map (daySum data))
    have hmxle := intFoldMax_le (daySum data k0) (ks.map (daySum data))
    have hmxval : ∃ k', k' ∈ (k0 :: ks) ∧ mx = daySum data k' := by
      rcases List.mem_cons.mp hmxmem with h | h
      · exact ⟨k0, List.mem_cons_self _ _, h⟩
      · obtain ⟨k, hk2, hkeq⟩ := List.mem_map.mp h
        exact ⟨k, List.mem_cons_of_mem _ hk2, hkeq.symm⟩
    obtain ⟨k', hk', hmk⟩ := hmxval
    have hvalmem : daySum data pk.1 ∈
        (daySum data k0 :: ks.map (daySum data)) := by
      rcases List.mem_cons.mp hpk1 with h | h
      · rw [h]
        exact List.mem_cons_self _ _
      · exact List.mem_cons_of_mem _ (List.mem_map_of_mem _ h)
    have hle1 : pk.2 ≤ mx := by
      rw [hpk2]
      exact hmxle _ hvalmem
    have hle2 : mx ≤ pk.2 := by
      rw [hmk]
      apply hpkle (k', daySum data k')
      rcases List.mem_cons.mp hk' with h | h
      · rw [h]
        exact List.mem_cons_self _ _
      · exact List.mem_cons_of_mem _ (List.mem_map_of_mem _ h)
    have hpkmx : mx = pk.2 := le_antisymm hle2 hle1
    have hmaxall : ∀ k ∈ dateVals data, daySum data k ≤ mx := by
      intro k hkv
      have hkk : k ∈ (k0 :: ks) := (hmemk k).mpr hkv
      rw [hpkmx]
      apply hpkle (k, daySum data k)
      rcases List.mem_cons.mp hkk with h | h
      · rw [h]
        exact List.mem_cons_self _ _
      · exact List.mem_cons_of_mem _ (List.mem_map_of_mem _ h)
    have hsum : ((k0 :: ks).map (daySum data)).sum =
        ((dateVals data).dedup.map (daySum data)).sum :=
      (hperm.map (daySum data)).sum_eq
    have hlen2 : (k0 :: ks).length = (dateVals data).dedup.length :=
      hperm.length_eq
    refine ⟨pk.1, mx,
      ((((k0 :: ks).map (daySum data)).sum : Int) : ℚ) /
        (((k0 :: ks).length : Nat) : ℚ),
      natFoldMin k0 ks, natFoldMax k0 ks, ?_, ?_, ?_, ?_, ?_, ?_, ?_, ?_⟩
    · simp only [trendAux]
    · exact (hmemk pk.1).mp hpk1
    · rw [hpkmx, hpk2]
    · exact hmaxall
    · rw [hsum, hlen2]
    · exact (hmemk _).mp (natFoldMin_mem k0 ks)
    · exact (hmemk _).mp (natFoldMax_mem k0 ks)
    · intro k hkv
      have hkk : k ∈ (k0 :: ks) := (hmemk k).mpr hkv
      exact ⟨natFoldMin_le k0 ks k hkk, natFoldMax_le k0 ks k hkk⟩

/-- C5 witness: the claim applied to the concrete cleaned frame (both
rows fall on the same date, with total 1000). -/
theorem claim_C5_witness :
    cleanedRecordSet cleanW = true ∧ cleanW.rows ≠ [] ∧
      (∃ d s m lo hi,
        generate_insights "engagement_trend" cleanW =
          [Insight.peakEngagement d s, Insight.avgEngagement m,
            Insight.dateRange lo hi] ∧
        d ∈ dateVals cleanW ∧ daySum cleanW d = s ∧
        (∀ k ∈ dateVals cleanW, daySum cleanW k ≤ s) ∧
        m = ((((dateVals cleanW).dedup.map (daySum cleanW)).sum : Int) : ℚ) /
          (((dateVals cleanW).dedup.length : Nat) : ℚ) ∧
        lo ∈ dateVals cleanW ∧ hi ∈ dateVals cleanW ∧
        (∀ k ∈ dateVals cleanW, lo ≤ k ∧ k ≤ hi)) :=
  ⟨by decide, by decide, claim_C5 cleanW (by decide) (by decide)⟩
